import Mathlib

/-!
Shallow embedding of the love-judge case/hearing/verdict lifecycle engine.

Sources embedded here:
- `src/domain/types.ts` — the data model (Case, Hearing, Statement, Evidence, Verdict);
- `src/store/fileStore.ts` — the persistence operations, modelled as pure state
  transformers over `StoreState` (the in-memory cache `data` of the file store;
  `save` writes the cache to disk and is invisible at this level);
- `src/http/server.ts` — the case/hearing/appeal route handlers, modelled after
  zod validation as functions over typed request bodies (zod's per-field shape
  checks are reflected in the Lean types of the body structures; the residual
  zod checks, such as `min(1)` on strings and arrays, are modelled explicitly);
- the judge service (OpenAI adapter) — the deterministic fallback verdict and
  the response-normalization (validator) step.

Modelling conventions:
- timestamps are milliseconds since the epoch (`Int`); the ISO-string round
  trips `new Date(x).getTime()` in the source are identities at this level,
  and the several `Date.now()` reads inside one operation are modelled as a
  single instant `now` passed as a parameter;
- `uuid()` / `randomUUID()` are modelled by caller-supplied fresh-id
  parameters (a single id for a created record, an indexed supply for
  evidence lists); no theorem depends on their values;
- JS numbers in adjudication responses are modelled as `Option ℚ` where
  `none` plays the role of NaN: `Number(x)` on a non-numeric value is NaN and
  `Math.min` / `Math.max` propagate NaN, which `Option.map` reproduces;
- the chat-message collection of the store is omitted: no modelled operation
  reads or writes it.
-/

namespace LoveJudge

/-- Side of a party, `"A" | "B"` in `types.ts`. -/
inductive PartySide where
  | A
  | B
deriving DecidableEq

/-- Embeds `Party` from `types.ts`. -/
structure Party where
  side : PartySide
  name : Option String := none
  baseline_state : Option String := none
deriving DecidableEq

/-- The `status` union of `Case` in `types.ts`. -/
inductive CaseStatus where
  | pending_acceptance
  | draft
  | pending_judgement
  | decided
  | appealed
  | expired
  | closed
deriving DecidableEq

/-- The `acceptance` union of `Case` in `types.ts`. -/
inductive Acceptance where
  | pending
  | accepted
  | rejected
  | expired
deriving DecidableEq

/-- Embeds `Case` from `types.ts`. -/
structure Case where
  id : String
  topic : String
  relationship_context : Option String := none
  parties : List Party
  status : CaseStatus
  created_at : Int
  owner_id : Option String := none
  participant_ids : Option (List String) := none
  invited_user_id : Option String := none
  expires_at : Option Int := none
  acceptance : Option Acceptance := none
deriving DecidableEq

/-- The `status` union of `Hearing` in `types.ts`. -/
inductive HearingStatus where
  | submitted
  | judged
deriving DecidableEq

/-- Embeds `Hearing` from `types.ts`. -/
structure Hearing where
  id : String
  case_id : String
  round : Nat
  status : HearingStatus
  created_at : Int
deriving DecidableEq

/-- Embeds `Statement` from `types.ts`. -/
structure Statement where
  hearing_id : String
  side : PartySide
  narrative : String
  feelings : Option String := none
  context : Option String := none
  requests : Option (List String) := none
  created_at : Int
deriving DecidableEq

/-- The `type` union of `Evidence` in `types.ts`. -/
inductive EvidenceType where
  | text
  | link
  | image
  | other
deriving DecidableEq

/-- Embeds `Evidence` from `types.ts`. -/
structure Evidence where
  id : String
  hearing_id : String
  side : PartySide
  type : EvidenceType
  title : Option String := none
  content_or_url : String
  notes : Option String := none
  created_at : Int
deriving DecidableEq

/-- JSON values, the shape of raw adjudication responses. -/
inductive Json where
  | nul
  | bool (b : Bool)
  | num (q : ℚ)
  | str (s : String)
  | arr (elems : List Json)
  | obj (fields : List (String × Json))

/-- Property access `j.k` on a JS value: only objects yield fields; accessing a
field of anything else (or a missing field) is `undefined`, here `none`. -/
def Json.getField : Json → String → Option Json
  | .obj fields, k => (fields.find? (fun p => decide (p.1 = k))).map (fun p => p.2)
  | _, _ => none

/-- The JS nullish-coalescing operator `x ?? d`: substitutes the default for
both `undefined` (a missing field, `none`) and `null` (`Json.nul`). -/
def jsCoalesce (v : Option Json) (dflt : Json) : Json :=
  match v with
  | none => dflt
  | some .nul => dflt
  | some j => j

/-- The `score` record of a `Verdict`.  The percentages and confidence are JS
numbers, hence `Option ℚ` with `none` for NaN. -/
structure Score where
  partyA_pct : Option ℚ
  partyB_pct : Option ℚ
  confidence : Option ℚ
deriving DecidableEq

/-- The `reasoning` record of a `Verdict`.  The normalizer copies whatever JSON
value the adjudicator supplied (it only substitutes defaults for missing or
null fields), so the fields are JSON values. -/
structure Reasoning where
  facts : Json
  fairness_checks : Json
  emotion_considerations : Json
  assumptions : Json
  missing_info : Json

/-- The `advice` record of a `Verdict`. -/
structure Advice where
  together : Json
  forA : Json
  forB : Json

/-- Embeds `Verdict` from `types.ts`, with the runtime-accurate field types produced
by the judge service (see `Reasoning`). -/
structure Verdict where
  hearing_id : String
  score : Score
  summary : Json
  reasoning : Reasoning
  advice : Advice
  raw_agent_payload : Option Json := none
  created_at : Int

/-- Embeds `User` from `store/fileStore.ts`. -/
structure User where
  id : String
  email : String
  name : String
  password : String
  friends : List String
deriving DecidableEq

/-- The in-memory cache of `store/fileStore.ts` (`DataShape`), minus the chat
messages, which no modelled operation touches. -/
structure StoreState where
  users : List User
  cases : List Case
  hearings : List Hearing
  statements : List Statement
  evidence : List Evidence
  verdicts : List Verdict

/-- Embeds `Array.from(new Set(l))` on strings: deduplicate keeping the first
occurrence of each element, preserving order. -/
def jsSetDedup (l : List String) : List String :=
  l.foldl (fun acc x => if x ∈ acc then acc else acc ++ [x]) []

/-- Mutating the object returned by `Array.prototype.find` in place: replace
the first element satisfying `p` (later duplicates are untouched). -/
def replaceFirst {α : Type} (p : α → Bool) (a : α) : List α → List α
  | [] => []
  | x :: xs => if p x then a :: xs else x :: replaceFirst p a xs

/-- Input record of `createCase` in `store/fileStore.ts`. -/
structure CreateCaseInput where
  ownerId : String
  topic : String
  relationship_context : Option String := none
  parties : Option (List Party) := none
  participantIds : Option (List String) := none
  invitedUserId : Option String := none

/-- Embeds `createCase` from `store/fileStore.ts` (lines 94-134). -/
def createCase (st : StoreState) (freshId : String) (now : Int)
    (input : CreateCaseInput) : StoreState × Case :=
  let parties : List Party :=
    match input.parties with
    | some ps => if ps.length > 0 then ps else [{ side := .A }, { side := .B }]
    | none => [{ side := .A }, { side := .B }]
  let participants : List String :=
    match input.participantIds with
    | some pids =>
        if pids.length > 0 then jsSetDedup (input.ownerId :: pids)
        else [input.ownerId]
    | none => [input.ownerId]
  let expiresAt : Option Int :=
    if input.invitedUserId.isSome then some (now + 24 * 60 * 60 * 1000) else none
  let newCase : Case :=
    { id := freshId
      topic := input.topic
      relationship_context := input.relationship_context
      parties := parties
      status := if input.invitedUserId.isSome then .pending_acceptance else .draft
      created_at := now
      owner_id := some input.ownerId
      participant_ids := some participants
      invited_user_id := input.invitedUserId
      expires_at := expiresAt
      acceptance := some (if input.invitedUserId.isSome then .pending else .accepted) }
  ({ st with cases := st.cases ++ [newCase] }, newCase)

/-- Errors thrown by the store operations (`throw new Error(...)`). -/
inductive StoreErr where
  | case_not_found
  | case_rejected
  | case_expired
  | forbidden
deriving DecidableEq

/-- Embeds `acceptCase` from `store/fileStore.ts` (lines 146-164).  The state is
returned alongside the result because the expiry branch mutates the case
before throwing. -/
def acceptCase (st : StoreState) (caseId userId : String) (now : Int) :
    StoreState × Except StoreErr Case :=
  match st.cases.find? (fun c => decide (c.id = caseId)) with
  | none => (st, .error .case_not_found)
  | some found =>
      if found.acceptance = some .rejected then (st, .error .case_rejected)
      else if found.acceptance = some .accepted then (st, .ok found)
      else if found.expires_at.any (fun e => decide (e < now)) then
        let c' : Case := { found with acceptance := some .expired, status := .expired }
        ({ st with cases := replaceFirst (fun c => decide (c.id = caseId)) c' st.cases },
          .error .case_expired)
      else if found.invited_user_id = some userId then
        let c' : Case :=
          { found with
              acceptance := some .accepted
              status := .draft
              participant_ids := some (jsSetDedup ((found.participant_ids.getD []) ++ [userId])) }
        ({ st with cases := replaceFirst (fun c => decide (c.id = caseId)) c' st.cases }, .ok c')
      else (st, .error .forbidden)

/-- Embeds `createHearing` from `store/fileStore.ts` (lines 177-186): push the new
hearing and flip the parent case to `pending_judgement` when it exists. -/
def createHearing (st : StoreState) (freshId : String) (now : Int)
    (caseId : String) (round : Nat) : StoreState × Hearing :=
  let hearing : Hearing :=
    { id := freshId, case_id := caseId, round := round, status := .submitted, created_at := now }
  let st' := { st with hearings := st.hearings ++ [hearing] }
  let st'' :=
    match st'.cases.find? (fun c => decide (c.id = caseId)) with
    | some c =>
        let c' : Case := { c with status := .pending_judgement }
        { st' with cases := replaceFirst (fun x => decide (x.id = caseId)) c' st'.cases }
    | none => st'
  (st'', hearing)

/-- Embeds `saveStatements` from `store/fileStore.ts`: full overwrite keyed by
hearing id. -/
def saveStatements (st : StoreState) (hearingId : String) (stmts : List Statement) : StoreState :=
  { st with statements :=
      st.statements.filter (fun s => decide (s.hearing_id ≠ hearingId)) ++ stmts }

/-- Embeds `saveEvidence` from `store/fileStore.ts`: full overwrite keyed by
hearing id. -/
def saveEvidence (st : StoreState) (hearingId : String) (evs : List Evidence) : StoreState :=
  { st with evidence :=
      st.evidence.filter (fun e => decide (e.hearing_id ≠ hearingId)) ++ evs }

/-- Embeds `getHearing` from `store/fileStore.ts`. -/
def getHearing (st : StoreState) (hearingId : String) : Option Hearing :=
  st.hearings.find? (fun h => decide (h.id = hearingId))

/-- Embeds `listHearings` from `store/fileStore.ts`. -/
def listHearings (st : StoreState) (caseId : String) : List Hearing :=
  st.hearings.filter (fun h => decide (h.case_id = caseId))

/-- Embeds `getStatements` from `store/fileStore.ts`. -/
def getStatements (st : StoreState) (hearingId : String) : List Statement :=
  st.statements.filter (fun s => decide (s.hearing_id = hearingId))

/-- Embeds `getEvidence` from `store/fileStore.ts`. -/
def getEvidence (st : StoreState) (hearingId : String) : List Evidence :=
  st.evidence.filter (fun e => decide (e.hearing_id = hearingId))

/-- Embeds `saveVerdict` from `store/fileStore.ts` (lines 216-224): upsert by hearing
id, then flip the hearing to `judged` and its parent case to `decided` when
they exist. -/
def saveVerdict (st : StoreState) (verdict : Verdict) : StoreState :=
  let verdicts' :=
    st.verdicts.filter (fun v => decide (v.hearing_id ≠ verdict.hearing_id)) ++ [verdict]
  match st.hearings.find? (fun h => decide (h.id = verdict.hearing_id)) with
  | some hearing =>
      let h' : Hearing := { hearing with status := .judged }
      let hearings' := replaceFirst (fun h => decide (h.id = verdict.hearing_id)) h' st.hearings
      let st₁ := { st with verdicts := verdicts', hearings := hearings' }
      match st.cases.find? (fun c => decide (c.id = hearing.case_id)) with
      | some c =>
          let c' : Case := { c with status := .decided }
          { st₁ with cases := replaceFirst (fun x => decide (x.id = hearing.case_id)) c' st₁.cases }
      | none => st₁
  | none =>
      -- `hearing` is undefined: `cases.find((c) => c.id === undefined)` matches nothing.
      { st with verdicts := verdicts' }

/-- Embeds `getVerdict` from `store/fileStore.ts`. -/
def getVerdict (st : StoreState) (hearingId : String) : Option Verdict :=
  st.verdicts.find? (fun v => decide (v.hearing_id = hearingId))

/-- The per-case expiry transition applied by `expireInvites`. -/
def expireCase (now : Int) (c : Case) : Case :=
  if c.acceptance = some .pending ∧ c.expires_at.any (fun e => decide (e < now)) then
    { c with acceptance := some .expired, status := .expired }
  else c

/-- Embeds `expireInvites` from `store/fileStore.ts` (lines 284-296): the lazy expiry
sweep over all cases. -/
def expireInvites (st : StoreState) (now : Int) : StoreState :=
  { st with cases := st.cases.map (expireCase now) }

/-- Embeds `getCase` from `store/fileStore.ts`: runs the expiry sweep, then looks the
case up in the swept state. -/
def getCase (st : StoreState) (now : Int) (caseId : String) : StoreState × Option Case :=
  let st' := expireInvites st now
  (st', st'.cases.find? (fun c => decide (c.id = caseId)))

/-! ### HTTP layer (`src/http/server.ts`)

The route handlers are modelled after authentication: the acting user id is a
parameter.  Request bodies are typed records; zod's shape and enum checks are
reflected in the Lean types, and the residual checks (`min(1)` on strings and
arrays, positivity of `round`) are modelled explicitly.  Handlers return the
resulting store state together with the response, an `Except` over the error
taxonomy below. -/

/-- HTTP-level error responses of the case endpoints. -/
inductive HttpErr where
  | validation
  | not_found
  | forbidden
  | expired
  | conflict
  | case_not_accepted
  | internal
deriving DecidableEq

/-- Body of `POST /cases` after zod shape checking (`server.ts` lines 180-186).
A present `friend_email` is a string in email format; the format check itself
is not modelled. -/
structure PostCasesBody where
  topic : String
  relationship_context : Option String := none
  parties : Option (List Party) := none
  friend_email : Option String := none

/-- The `POST /cases` handler (`server.ts` lines 180-204): validate, resolve
the optional invited friend by email, then `createCase` with the friend as
both participant and invitee. -/
def postCases (st : StoreState) (freshId : String) (now : Int) (userId : String)
    (body : PostCasesBody) : StoreState × Except HttpErr Case :=
  if body.topic = "" then (st, .error .validation)
  else
    match body.friend_email with
    | some email =>
        match st.users.find? (fun u => decide (u.email = email)) with
        | none => (st, .error .not_found)
        | some friend =>
            let r := createCase st freshId now
              { ownerId := userId
                topic := body.topic
                relationship_context := body.relationship_context
                parties := body.parties
                participantIds := some [friend.id]
                invitedUserId := some friend.id }
            (r.1, .ok r.2)
    | none =>
        let r := createCase st freshId now
          { ownerId := userId
            topic := body.topic
            relationship_context := body.relationship_context
            parties := body.parties }
        (r.1, .ok r.2)

/-- One element of the `statements` array of a hearing or appeal body
(`statementSchema` in `server.ts`). -/
structure StatementInput where
  side : PartySide
  narrative : String
  feelings : Option String := none
  context : Option String := none
  requests : Option (List String) := none

/-- One element of the `evidence` array of a hearing or appeal body
(`evidenceSchema` in `server.ts`). -/
structure EvidenceInput where
  side : PartySide
  type : EvidenceType
  title : Option String := none
  content_or_url : String
  notes : Option String := none

/-- Body of `POST /cases/:caseId/hearings` (`server.ts` lines 227-231). -/
structure PostHearingsBody where
  round : Option Nat := none
  statements : List StatementInput
  evidence : Option (List EvidenceInput) := none

/-- The residual zod checks on a hearing body: `round` positive when present,
at least one statement, non-empty narratives and evidence contents. -/
def postHearingsValid (b : PostHearingsBody) : Bool :=
  b.round.all (fun r => decide (1 ≤ r)) &&
    decide (1 ≤ b.statements.length) &&
    b.statements.all (fun s => decide (s.narrative ≠ "")) &&
    (b.evidence.getD []).all (fun e => decide (e.content_or_url ≠ ""))

/-- Embeds `Math.max(...rounds)` over a list of hearings.  Rounds are naturals, so
the `0` base of the fold agrees with JS `Math.max` on every non-empty list;
both call sites guard against the empty list (explicitly in the hearings
handler, via the hearing-belongs-to-case check in the appeal handler). -/
def maxRound (hs : List Hearing) : Nat :=
  (hs.map (fun h => h.round)).foldr max 0

/-- Materialize a statement input against a hearing, as both handlers do:
`{ ...s, hearing_id, created_at: now }`. -/
def toStatement (hearingId : String) (now : Int) (s : StatementInput) : Statement :=
  { hearing_id := hearingId
    side := s.side
    narrative := s.narrative
    feelings := s.feelings
    context := s.context
    requests := s.requests
    created_at := now }

/-- Materialize an evidence input against a hearing with a fresh id drawn from
the indexed supply, as both handlers do. -/
def toEvidence (hearingId : String) (now : Int) (evIds : Nat → String)
    (i : Nat) (e : EvidenceInput) : Evidence :=
  { id := evIds i
    hearing_id := hearingId
    side := e.side
    type := e.type
    title := e.title
    content_or_url := e.content_or_url
    notes := e.notes
    created_at := now }

/-- The `POST /cases/:caseId/hearings` handler (`server.ts` lines 218-255):
look up the case (running the expiry sweep), check participation and
acceptance, validate, resolve the round (1 for the first hearing, max+1
otherwise, unless supplied), create the hearing and overwrite its statements
and evidence. -/
def postHearings (st : StoreState) (freshId : String) (evIds : Nat → String)
    (now : Int) (userId caseId : String) (body : PostHearingsBody) :
    StoreState × Except HttpErr Hearing :=
  let r₀ := getCase st now caseId
  let st₁ := r₀.1
  match r₀.2 with
  | none => (st₁, .error .not_found)
  | some caseItem =>
      if ¬ (caseItem.participant_ids.getD []).contains userId then (st₁, .error .forbidden)
      else if caseItem.acceptance.any (fun a => decide (a ≠ .accepted)) then
        (st₁, .error .case_not_accepted)
      else if ¬ postHearingsValid body then (st₁, .error .validation)
      else
        let hearings := listHearings st₁ caseItem.id
        let nextRound :=
          match body.round with
          | some r => r
          | none => if hearings.length = 0 then 1 else maxRound hearings + 1
        let r₁ := createHearing st₁ freshId now caseItem.id nextRound
        let hearing := r₁.2
        let st₂ := saveStatements r₁.1 hearing.id
          (body.statements.map (toStatement hearing.id now))
        let st₃ := saveEvidence st₂ hearing.id
          ((body.evidence.getD []).mapIdx (toEvidence hearing.id now evIds))
        (st₃, .ok hearing)

/-- Body of `POST /cases/:caseId/hearings/:hearingId/appeal`
(`server.ts` lines 341-344). -/
structure AppealBody where
  statements : Option (List StatementInput) := none
  evidence : Option (List EvidenceInput) := none

/-- The residual zod checks on an appeal body. -/
def appealValid (b : AppealBody) : Bool :=
  (b.statements.getD []).all (fun s => decide (s.narrative ≠ "")) &&
    (b.evidence.getD []).all (fun e => decide (e.content_or_url ≠ ""))

/-- The `POST /cases/:caseId/hearings/:hearingId/appeal` handler
(`server.ts` lines 330-372): look up the case and the hearing, check
participation and that the hearing belongs to the case, compute
`nextRound = max(existing rounds)+1`, create the new hearing, overwrite its
statements and evidence only when supplied, and set the case status to
`appealed`.  The final source line calls `updateCase(caseItem)`, a function
that is neither defined nor imported anywhere in the repository; at runtime
this raises a ReferenceError after every state mutation above has already been
applied to the store cache, so the handler's response is an internal error
even though the appeal itself is fully recorded. -/
def postAppeal (st : StoreState) (freshId : String) (evIds : Nat → String)
    (now : Int) (userId caseId hearingId : String) (body : AppealBody) :
    StoreState × Except HttpErr Hearing :=
  let r₀ := getCase st now caseId
  let st₁ := r₀.1
  match r₀.2 with
  | none => (st₁, .error .not_found)
  | some caseItem =>
      if ¬ (caseItem.participant_ids.getD []).contains userId then (st₁, .error .forbidden)
      else
        match getHearing st₁ hearingId with
        | none => (st₁, .error .not_found)
        | some hearing =>
            if hearing.case_id ≠ caseItem.id then (st₁, .error .not_found)
            else if ¬ appealValid body then (st₁, .error .validation)
            else
              let hearings := listHearings st₁ caseItem.id
              let nextRound := maxRound hearings + 1
              let r₁ := createHearing st₁ freshId now caseItem.id nextRound
              let next := r₁.2
              let st₂ :=
                match body.statements with
                | some stmts => saveStatements r₁.1 next.id (stmts.map (toStatement next.id now))
                | none => r₁.1
              let st₃ :=
                match body.evidence with
                | some evs => saveEvidence st₂ next.id (evs.mapIdx (toEvidence next.id now evIds))
                | none => st₂
              let c' : Case := { caseItem with status := .appealed }
              let st₄ :=
                { st₃ with cases := replaceFirst (fun x => decide (x.id = caseItem.id)) c' st₃.cases }
              (st₄, .error .internal)

/-- A hearing-creating request with the `round` argument omitted: either an
initial submission (`POST .../hearings` with no `round` field) or an appeal
(which never takes a round). -/
inductive HOp where
  | submit (freshId : String) (evIds : Nat → String) (now : Int) (userId caseId : String)
      (stmts : List StatementInput) (evs : Option (List EvidenceInput))
  | appealOp (freshId : String) (evIds : Nat → String) (now : Int)
      (userId caseId hearingId : String) (body : AppealBody)

/-- Apply one omitted-round operation to the store, keeping whatever state the
handler leaves behind (error responses included). -/
def applyOp (st : StoreState) : HOp → StoreState
  | .submit freshId evIds now userId caseId stmts evs =>
      (postHearings st freshId evIds now userId caseId
        { round := none, statements := stmts, evidence := evs }).1
  | .appealOp freshId evIds now userId caseId hearingId body =>
      (postAppeal st freshId evIds now userId caseId hearingId body).1

/-- Run a sequence of omitted-round operations. -/
def runOps (st : StoreState) (ops : List HOp) : StoreState :=
  ops.foldl applyOp st

/-! ### Judge service (`src/services/openaiJudge.ts`)

The deterministic fallback verdict and the normalization (validator) step
applied to a parsed adjudication response. -/

/-- Count the maximal whitespace runs of a character list; `prevWs` records
whether the previous character was whitespace. -/
def wsRunsAux : Bool → List Char → Nat
  | _, [] => 0
  | prevWs, c :: rest =>
      (if c.isWhitespace && !prevWs then 1 else 0) + wsRunsAux c.isWhitespace rest

/-- Length of `s.split(/\s+/)`: the regex split yields one segment more than
the number of maximal whitespace runs (leading and trailing runs contribute
empty segments, exactly as in JS). -/
def splitWsCount (s : String) : Nat :=
  wsRunsAux false s.toList + 1

/-- JS `Math.round` on a non-negative rational: round half away from zero,
which for these arguments is the floor of `q + 1/2`. -/
def jsRound (q : ℚ) : ℚ :=
  ((⌊q + 1 / 2⌋ : ℤ) : ℚ)

/-- Value of a digit string (most significant first). -/
def digitsVal (cs : List Char) : Nat :=
  cs.foldl (fun a c => a * 10 + (c.toNat - '0'.toNat)) 0

/-- Parse an unsigned decimal literal `digits [. digits]` that must consume
the whole input and contain at least one digit; anything else is NaN.
Exponent, hexadecimal and `Infinity` forms, which JS would also accept, are
not modelled and fall to NaN. -/
def jsDecimal (cs : List Char) : Option ℚ :=
  let ip := cs.takeWhile Char.isDigit
  let rest := cs.drop ip.length
  match rest with
  | [] => if ip.isEmpty then none else some ((digitsVal ip : ℚ))
  | '.' :: fp =>
      if fp.all Char.isDigit then
        if ip.isEmpty && fp.isEmpty then none
        else some ((digitsVal ip : ℚ) + (digitsVal fp : ℚ) / (10 ^ fp.length))
      else none
  | _ => none

/-- JS `Number` on a string: trim whitespace, the empty string is `0`, an
optional sign followed by a decimal literal parses, anything else is NaN. -/
def jsStrToNum (s : String) : Option ℚ :=
  let trimmed := ((s.toList.dropWhile Char.isWhitespace).reverse.dropWhile
    Char.isWhitespace).reverse
  match trimmed with
  | [] => some 0
  | '-' :: rest => (jsDecimal rest).map (fun q => -q)
  | '+' :: rest => jsDecimal rest
  | rest => jsDecimal rest

/-- JS `Number` coercion of a JSON value, with `none` for NaN: `null` is 0,
booleans are 0/1, strings parse as above.  Arrays coerce through their string
form in JS: the empty array joins to the empty string, hence 0; other arrays
(whose joined forms only sometimes parse) and plain objects (whose string form
`[object Object]` never parses) are mapped to NaN. -/
def jsToNumber : Json → Option ℚ
  | .nul => some 0
  | .bool b => some (if b then 1 else 0)
  | .num q => some q
  | .str s => jsStrToNum s
  | .arr [] => some 0
  | .arr (_ :: _) => none
  | .obj _ => none

/-- Embeds `Math.min(hi, Math.max(lo, x))`: clamp into `[lo, hi]`, propagating NaN
exactly as both JS functions do. -/
def clampNum (lo hi : ℚ) (v : Option ℚ) : Option ℚ :=
  v.map (fun q => min hi (max lo q))

/-- The normalization applied to a parsed adjudication response
(`openaiJudge.ts` lines 196-218): clamp the three score fields after `?? 0`
and `Number` coercion, and copy every other field with `?? ""` or `?? []`
defaults through optional chaining.  The payload field of the result stands
for the parsed response (the source stores the whole completion envelope,
whose JSON content this is). -/
def normalizeResponse (hearingId : String) (now : Int) (parsed : Json) : Verdict :=
  let score := parsed.getField "score"
  let scoreField := fun (k : String) =>
    jsCoalesce (score.bind (fun sc => sc.getField k)) (Json.num 0)
  let reasoning := parsed.getField "reasoning"
  let rField := fun (k : String) (dflt : Json) =>
    jsCoalesce (reasoning.bind (fun r => r.getField k)) dflt
  let advice := parsed.getField "advice"
  let aField := fun (k : String) (dflt : Json) =>
    jsCoalesce (advice.bind (fun a => a.getField k)) dflt
  { hearing_id := hearingId
    score :=
      { partyA_pct := clampNum 0 100 (jsToNumber (scoreField "partyA_pct"))
        partyB_pct := clampNum 0 100 (jsToNumber (scoreField "partyB_pct"))
        confidence := clampNum 0 1 (jsToNumber (scoreField "confidence")) }
    summary := jsCoalesce (parsed.getField "summary") (.str "")
    reasoning :=
      { facts := rField "facts" (.str "")
        fairness_checks := rField "fairness_checks" (.arr [])
        emotion_considerations := rField "emotion_considerations" (.str "")
        assumptions := rField "assumptions" (.arr [])
        missing_info := rField "missing_info" (.arr []) }
    advice :=
      { together := aField "together" (.arr [])
        forA := aField "forA" (.arr [])
        forB := aField "forB" (.arr []) }
    raw_agent_payload := some parsed
    created_at := now }

/-- Embeds `JudgeServiceInput` from `types.ts`; its statements carry the submission
fields only. -/
structure JudgeServiceInput where
  caseId : String
  hearingId : String
  topic : String
  parties : List Party
  statements : List StatementInput
  evidence : List Evidence

/-- Embeds `defaultVerdict` from `openaiJudge.ts` (lines 119-145): the deterministic
fallback adjudicator.  Percentages are allocated by relative narrative word
count of side A (each `||` substitutes its right operand when the left is 0,
as in JS), `partyB_pct` is the complement to 100, and the confidence is fixed
at 0.3. -/
def defaultVerdict (now : Int) (input : JudgeServiceInput) : Verdict :=
  let wordSum : Nat := (input.statements.map (fun s => splitWsCount s.narrative)).sum
  let totalWords : ℚ := if wordSum = 0 then 1 else (wordSum : ℚ)
  let aSum : Nat :=
    ((input.statements.filter (fun s => decide (s.side = .A))).map
      (fun s => splitWsCount s.narrative)).sum
  let aWords : ℚ := if aSum = 0 then totalWords / 2 else (aSum : ℚ)
  let partyA_pct : ℚ := jsRound (aWords / totalWords * 100)
  let partyB_pct : ℚ := 100 - partyA_pct
  { hearing_id := input.hearingId
    score :=
      { partyA_pct := some partyA_pct
        partyB_pct := some partyB_pct
        confidence := some (3 / 10) }
    summary := .str "Mocked verdict: replace with real OpenAI call."
    reasoning :=
      { facts := .str "Mock mode used because no OpenAI API key provided."
        fairness_checks := .arr [.str "Mock mode only approximates percentages."]
        emotion_considerations := .str "Not evaluated in mock mode."
        assumptions := .arr []
        missing_info := .arr [] }
    advice :=
      { together := .arr [.str "Share key feelings calmly and set a time to revisit the issue."]
        forA := .arr [.str "Acknowledge B的压力并用“我感受”句式表达需求。"]
        forB := .arr [.str "主动确认 A 的核心诉求，并提出一个小的让步行动。"] }
    raw_agent_payload := none
    created_at := now }

/-! ### Concrete fixtures used by witnesses and counterexamples -/

/-- A store with no records. -/
def emptyStore : StoreState :=
  { users := [], cases := [], hearings := [], statements := [], evidence := [], verdicts := [] }

/-- A store holding one registered user, the invitee of the C1 scenario. -/
def inviteeStore : StoreState :=
  { emptyStore with
      users := [{ id := "u2", email := "f@x", name := "F", password := "p", friends := [] }] }

/-- An accepted case owned by `"u1"`, already decided. -/
def decidedCase : Case :=
  { id := "c1", topic := "chores", parties := [{ side := .A }, { side := .B }]
    status := .decided, created_at := 0, owner_id := some "u1"
    participant_ids := some ["u1"], acceptance := some .accepted }

/-- The judged first hearing of `decidedCase`. -/
def judgedHearing : Hearing :=
  { id := "h1", case_id := "c1", round := 1, status := .judged, created_at := 0 }

/-- A niladic sample verdict for `judgedHearing`. -/
def sampleVerdict : Verdict :=
  { hearing_id := "h1"
    score := { partyA_pct := some 60, partyB_pct := some 40, confidence := some (1 / 2) }
    summary := .str "s"
    reasoning := { facts := .str "", fairness_checks := .arr []
                   emotion_considerations := .str "", assumptions := .arr []
                   missing_info := .arr [] }
    advice := { together := .arr [], forA := .arr [], forB := .arr [] }
    created_at := 0 }

/-- A second verdict for `judgedHearing`, distinct from `sampleVerdict`. -/
def sampleVerdict' : Verdict :=
  { sampleVerdict with
      score := { partyA_pct := some 30, partyB_pct := some 70, confidence := some (9 / 10) } }

/-- A store with the decided case, its judged hearing and its verdict. -/
def decidedStore : StoreState :=
  { emptyStore with
      cases := [decidedCase]
      hearings := [judgedHearing]
      verdicts := [sampleVerdict] }

/-- An accepted case with no hearings yet, for the round-sequence witness. -/
def freshCase : Case :=
  { id := "c1", topic := "chores", parties := [{ side := .A }, { side := .B }]
    status := .draft, created_at := 0, owner_id := some "u1"
    participant_ids := some ["u1"], acceptance := some .accepted }

/-- A store holding only `freshCase`. -/
def freshStore : StoreState := { emptyStore with cases := [freshCase] }

/-- A minimal valid statement input. -/
def c5stmt : StatementInput := { side := .A, narrative := "x" }

/-- A hearing body with one statement and the round omitted. -/
def c5body : PostHearingsBody := { statements := [c5stmt] }

/-- Two omitted-round submissions against `freshCase`. -/
def c5ops : List HOp :=
  [ .submit "h1" (fun _ => "e") 0 "u1" "c1" [c5stmt] none,
    .submit "h2" (fun _ => "e") 0 "u1" "c1" [c5stmt] none ]

/-- A response whose score fields violate the claimed bounds. -/
def c6j : Json :=
  .obj [("score", .obj [("partyA_pct", .num 150), ("confidence", .num (-1))])]

/-- A response whose `partyA_pct` is a non-numeric string, coercing to NaN. -/
def c6bad : Json :=
  .obj [("score", .obj [("partyA_pct", .str "abc")])]

/-- A pending invitation case whose expiry (time 10) has passed by time 100. -/
def pendingCase : Case :=
  { id := "c1", topic := "chores", parties := [{ side := .A }, { side := .B }]
    status := .pending_acceptance, created_at := 0, owner_id := some "u1"
    participant_ids := some ["u1"], invited_user_id := some "u2"
    expires_at := some 10, acceptance := some .pending }

/-- A store holding only `pendingCase`. -/
def pendingStore : StoreState := { emptyStore with cases := [pendingCase] }

/-- A sample statement for hearing `"h1"` by side A. -/
def stmtA (text : String) : Statement :=
  { hearing_id := "h1", side := .A, narrative := text, created_at := 0 }

/-- A sample statement for hearing `"h2"` by side B. -/
def stmtOther : Statement :=
  { hearing_id := "h2", side := .B, narrative := "other", created_at := 0 }

/-- The expired form of a case, as written by the expiry branch of
`acceptCase` and by `expireInvites`. -/
def expiredOf (c : Case) : Case :=
  { c with acceptance := some .expired, status := .expired }

/-- The judged form of a hearing, as written by `saveVerdict`. -/
def judgedOf (h : Hearing) : Hearing := { h with status := .judged }

/-- The decided form of a case, as written by `saveVerdict`. -/
def decidedOf (c : Case) : Case := { c with status := .decided }

/-- The pending-judgement form of a case, as written by `createHearing`. -/
def pendingJudgementOf (c : Case) : Case := { c with status := .pending_judgement }

/-- The appealed form of a case, as written by the appeal handler. -/
def appealedOf (c : Case) : Case := { c with status := .appealed }

/-! ### Helper lemmas -/

theorem replaceFirst_find? {α : Type} (p : α → Bool) (b : α) (hb : p b = true) :
    ∀ l : List α, (l.find? p).isSome = true → (replaceFirst p b l).find? p = some b := by
  intro l
  induction l with
  | nil => intro hl; simp at hl
  | cons x xs ih =>
      intro hl
      by_cases hp : p x = true
      · simp [replaceFirst, hp, List.find?_cons_of_pos _ hb]
      · have hp' : p x = false := by simpa using hp
        rw [List.find?_cons_of_neg _ hp] at hl
        simp only [replaceFirst, hp', Bool.false_eq_true, if_false]
        rw [List.find?_cons_of_neg _ hp]
        exact ih hl

theorem replaceFirst_replaceFirst {α : Type} (p : α → Bool) (b : α) (hb : p b = true) :
    ∀ l : List α, replaceFirst p b (replaceFirst p b l) = replaceFirst p b l := by
  intro l
  induction l with
  | nil => rfl
  | cons x xs ih =>
      by_cases hp : p x = true
      · simp [replaceFirst, hp, hb]
      · have hp' : p x = false := by simpa using hp
        simp [replaceFirst, hp', ih]

theorem filter_ne_filter_eq {α : Type} (f : α → String) (k : String) (l : List α) :
    (l.filter (fun x => decide (f x ≠ k))).filter (fun x => decide (f x = k)) = [] := by
  rw [List.filter_eq_nil_iff]
  intro x hx
  have hne := (List.mem_filter.mp hx).2
  simp at hne ⊢
  exact hne

theorem find?_eq_filter_ne {α : Type} (f : α → String) (k : String) (l : List α) :
    (l.filter (fun x => decide (f x ≠ k))).find? (fun x => decide (f x = k)) = none := by
  rw [List.find?_eq_none]
  intro x hx
  have hne := (List.mem_filter.mp hx).2
  simp at hne ⊢
  exact hne

theorem filter_eq_of_all {α : Type} (f : α → String) (k : String) (l : List α)
    (h : ∀ x ∈ l, f x = k) : l.filter (fun x => decide (f x = k)) = l := by
  rw [List.filter_eq_self]
  intro a ha
  simpa using h a ha

theorem filter_ne_eq_nil_of_all {α : Type} (f : α → String) (k : String) (l : List α)
    (h : ∀ x ∈ l, f x = k) : l.filter (fun x => decide (f x ≠ k)) = [] := by
  rw [List.filter_eq_nil_iff]
  intro a ha
  simpa using h a ha

theorem filter_eq_nil_of_ne {α : Type} (f : α → String) (k k' : String) (hkk : k' ≠ k)
    (l : List α) (h : ∀ x ∈ l, f x = k) :
    l.filter (fun x => decide (f x = k')) = [] := by
  rw [List.filter_eq_nil_iff]
  intro a ha
  have hk := h a ha
  simp [hk]
  exact fun hcon => hkk hcon.symm

theorem filter_eq_filter_ne_comm {α : Type} (f : α → String) (k k' : String) (hkk : k' ≠ k)
    (l : List α) :
    (l.filter (fun x => decide (f x ≠ k))).filter (fun x => decide (f x = k')) =
      l.filter (fun x => decide (f x = k')) := by
  induction l with
  | nil => rfl
  | cons x xs ih =>
      simp only [List.filter_cons]
      by_cases hxk : f x = k
      · have d1 : decide (f x ≠ k) = false := by simp [hxk]
        have d2 : decide (f x = k') = false := by
          rw [hxk]
          simpa using fun hcon => hkk hcon.symm
        simp only [d1, d2, Bool.false_eq_true, if_false]
        exact ih
      · have d1 : decide (f x ≠ k) = true := by simp [hxk]
        simp only [d1, if_true, List.filter_cons]
        by_cases hx : f x = k'
        · have d2 : decide (f x = k') = true := by simp [hx]
          simp only [d2, if_true, ih]
        · have d2 : decide (f x = k') = false := by simp [hx]
          simp only [d2, Bool.false_eq_true, if_false, ih]

/-! ### C1 -/

/-- C1 (amended): a `createCase` call with an `invitedUserId` returns a Case
with status `pending_acceptance`, acceptance `pending`, expiry = creation
time + 24 hours, and participant set equal to {owner} ∪ the supplied
participant ids in first-occurrence order — not {owner} alone whenever
participant ids are supplied, as the HTTP handler does for the invitee. -/
theorem c1_invited_createCase (st : StoreState) (freshId : String) (now : Int)
    (input : CreateCaseInput) (f : String) (hinv : input.invitedUserId = some f) :
    ((createCase st freshId now input).2.status = CaseStatus.pending_acceptance) ∧
    ((createCase st freshId now input).2.acceptance = some Acceptance.pending) ∧
    ((createCase st freshId now input).2.created_at = now) ∧
    ((createCase st freshId now input).2.expires_at = some (now + 24 * 60 * 60 * 1000)) ∧
    ((createCase st freshId now input).2.participant_ids =
      some (jsSetDedup (input.ownerId :: input.participantIds.getD []))) := by
  have hs : input.invitedUserId.isSome = true := by rw [hinv]; rfl
  refine ⟨by simp [createCase, hs], by simp [createCase, hs], rfl,
    by simp [createCase, hs], ?_⟩
  simp only [createCase]
  cases hpids : input.participantIds with
  | none => simp [jsSetDedup]
  | some pids =>
      cases pids with
      | nil => simp [jsSetDedup]
      | cons x xs => simp [jsSetDedup]

/-- Witness for C1: instantiates the amended theorem on a concrete call. -/
theorem c1_invited_createCase_witness :
    ((createCase emptyStore "case1" 0
        { ownerId := "u1", topic := "t", invitedUserId := some "u2" }).2.status =
      CaseStatus.pending_acceptance) ∧
    ((createCase emptyStore "case1" 0
        { ownerId := "u1", topic := "t", invitedUserId := some "u2" }).2.acceptance =
      some Acceptance.pending) ∧
    ((createCase emptyStore "case1" 0
        { ownerId := "u1", topic := "t", invitedUserId := some "u2" }).2.created_at = 0) ∧
    ((createCase emptyStore "case1" 0
        { ownerId := "u1", topic := "t", invitedUserId := some "u2" }).2.expires_at =
      some (0 + 24 * 60 * 60 * 1000)) ∧
    ((createCase emptyStore "case1" 0
        { ownerId := "u1", topic := "t", invitedUserId := some "u2" }).2.participant_ids =
      some (jsSetDedup ("u1" :: (Option.getD none [])))) :=
  c1_invited_createCase emptyStore "case1" 0
    { ownerId := "u1", topic := "t", invitedUserId := some "u2" } "u2" rfl

/-- Counterexample to C1 as stated: through `POST /cases` with a friend
email, the created case carries the invited user in its participant set
already, so the participant set is not {owner} alone. -/
theorem c1_counterexample :
    (((postCases inviteeStore "case1" 0 "u1"
        { topic := "chores", friend_email := some "f@x" }).2.toOption.map
      (fun c => (c.invited_user_id, c.participant_ids))) =
      some (some "u2", some ["u1", "u2"])) ∧
    (some ["u1", "u2"] : Option (List String)) ≠ some ["u1"] :=
  ⟨rfl, by decide⟩

/-! ### C9 -/

/-- C9: on a case whose acceptance is already `accepted`, `acceptCase`
returns the case successfully for any acting user and any time, leaving the
store untouched: the already-accepted short-circuit precedes the invited-user
check, so no Forbidden error can occur on an accepted case. -/
theorem c9_accepted_short_circuit (st : StoreState) (caseId userId : String) (now : Int)
    (c : Case) (hfind : st.cases.find? (fun x => decide (x.id = caseId)) = some c)
    (hacc : c.acceptance = some Acceptance.accepted) :
    acceptCase st caseId userId now = (st, .ok c) := by
  simp [acceptCase, hfind, hacc]

/-- Witness for C9: a user who is neither invitee nor participant gets the
accepted case back without error. -/
theorem c9_accepted_short_circuit_witness :
    acceptCase decidedStore "c1" "stranger" 999 = (decidedStore, .ok decidedCase) :=
  c9_accepted_short_circuit decidedStore "c1" "stranger" 999 decidedCase rfl rfl

/-! ### C4 -/

/-- C4: on a case with pending acceptance and a past expiry, `acceptCase`
fails with Expired and mutates the case to acceptance `expired` and status
`expired`; any repeated call (any user, any later reading of the clock past
the expiry) yields the same error and leaves the store in exactly the same
state. -/
theorem c4_accept_expired (st : StoreState) (caseId userId : String) (now : Int)
    (c : Case) (e : Int)
    (hfind : st.cases.find? (fun x => decide (x.id = caseId)) = some c)
    (hacc : c.acceptance = some Acceptance.pending)
    (hexp : c.expires_at = some e) (hlt : e < now) :
    ((acceptCase st caseId userId now).2 = .error .case_expired) ∧
    ((acceptCase st caseId userId now).1.cases.find? (fun x => decide (x.id = caseId)) =
      some (expiredOf c)) ∧
    (∀ userId' now', e < now' →
      acceptCase (acceptCase st caseId userId now).1 caseId userId' now' =
        ((acceptCase st caseId userId now).1, .error .case_expired)) := by
  have hdec : decide (e < now) = true := by simpa using hlt
  have hid : c.id = caseId := by simpa using List.find?_some hfind
  have hpcExp : (fun x : Case => decide (x.id = caseId)) (expiredOf c) = true := by
    simpa [expiredOf] using hid
  have hsome : (st.cases.find? (fun x => decide (x.id = caseId))).isSome = true := by
    rw [hfind]; rfl
  have hstep : acceptCase st caseId userId now =
      ({ st with cases := replaceFirst (fun x => decide (x.id = caseId)) (expiredOf c) st.cases },
        .error .case_expired) := by
    simp [acceptCase, hfind, hacc, hexp, hdec, expiredOf]
  have hfind' : (replaceFirst (fun x => decide (x.id = caseId)) (expiredOf c) st.cases).find?
      (fun x => decide (x.id = caseId)) = some (expiredOf c) :=
    replaceFirst_find? (fun x => decide (x.id = caseId)) (expiredOf c) hpcExp st.cases hsome
  refine ⟨by rw [hstep], by rw [hstep]; exact hfind', ?_⟩
  intro userId' now' hlt'
  have hdec' : decide (e < now') = true := by simpa using hlt'
  have hidem := replaceFirst_replaceFirst (fun x : Case => decide (x.id = caseId))
    (expiredOf c) hpcExp st.cases
  rw [hstep]
  simp only [acceptCase, hfind']
  simp [expiredOf, hexp, hdec'] at hidem ⊢
  simp [hidem]

/-- Witness for C4: the pending case expired at time 10; accepting at time
100 fails with Expired and marks the case expired, and a second accept at
time 200 by a different user returns the same error and the same state. -/
theorem c4_accept_expired_witness :
    ((acceptCase pendingStore "c1" "u3" 100).2 = .error .case_expired) ∧
    ((acceptCase pendingStore "c1" "u3" 100).1.cases.find? (fun x => decide (x.id = "c1")) =
      some (expiredOf pendingCase)) ∧
    (acceptCase (acceptCase pendingStore "c1" "u3" 100).1 "c1" "u2" 200 =
      ((acceptCase pendingStore "c1" "u3" 100).1, .error .case_expired)) := by
  have h := c4_accept_expired pendingStore "c1" "u3" 100 pendingCase 10 rfl rfl rfl (by decide)
  exact ⟨h.1, h.2.1, h.2.2 "u2" 200 (by decide)⟩

/-! ### C8 -/

/-- C8: saving statements for a hearing id replaces the prior statement set
for that hearing wholesale; after two successive saves only the second set is
retrievable for that hearing, and statements of other hearings are
unchanged.  The hypotheses record that the saved statements are keyed to the
hearing, which is how both handlers construct them. -/
theorem c8_saveStatements_replace (st : StoreState) (hearingId : String)
    (s1 s2 : List Statement)
    (h1 : ∀ s ∈ s1, s.hearing_id = hearingId)
    (h2 : ∀ s ∈ s2, s.hearing_id = hearingId) :
    (getStatements (saveStatements (saveStatements st hearingId s1) hearingId s2) hearingId
      = s2) ∧
    (∀ other, other ≠ hearingId →
      getStatements (saveStatements (saveStatements st hearingId s1) hearingId s2) other =
        getStatements st other) := by
  have hs1 : s1.filter (fun s => decide (s.hearing_id ≠ hearingId)) = [] :=
    filter_ne_eq_nil_of_all (fun s => s.hearing_id) hearingId s1 h1
  constructor
  · simp only [getStatements, saveStatements, List.filter_append]
    rw [filter_ne_filter_eq (fun s : Statement => s.hearing_id),
      filter_ne_filter_eq (fun s : Statement => s.hearing_id),
      filter_eq_of_all (fun s : Statement => s.hearing_id) hearingId s2 h2]
    simp
  · intro other hother
    simp only [getStatements, saveStatements, List.filter_append]
    rw [hs1, filter_eq_filter_ne_comm (fun s : Statement => s.hearing_id) _ _ hother,
      filter_eq_filter_ne_comm (fun s : Statement => s.hearing_id) _ _ hother,
      filter_eq_nil_of_ne (fun s : Statement => s.hearing_id) _ _ hother s2 h2]
    simp

/-- Witness for C8: two saves for hearing `"h1"`; the second set wins and
hearing `"h2"` is untouched. -/
theorem c8_saveStatements_replace_witness :
    (getStatements
        (saveStatements (saveStatements emptyStore "h1" [stmtA "first"]) "h1" [stmtA "second"])
        "h1" = [stmtA "second"]) ∧
    (getStatements
        (saveStatements (saveStatements emptyStore "h1" [stmtA "first"]) "h1" [stmtA "second"])
        "h2" = getStatements emptyStore "h2") := by
  have h := c8_saveStatements_replace emptyStore "h1" [stmtA "first"] [stmtA "second"]
    (by intro s hs; rw [List.mem_singleton] at hs; subst hs; rfl)
    (by intro s hs; rw [List.mem_singleton] at hs; subst hs; rfl)
  exact ⟨h.1, h.2 "h2" (by decide)⟩

/-! ### C7 -/

theorem saveVerdict_effects (st : StoreState) (v : Verdict) (h : Hearing) (c : Case)
    (hh : st.hearings.find? (fun x => decide (x.id = v.hearing_id)) = some h)
    (hc : st.cases.find? (fun x => decide (x.id = h.case_id)) = some c) :
    ((saveVerdict st v).verdicts =
      st.verdicts.filter (fun x => decide (x.hearing_id ≠ v.hearing_id)) ++ [v]) ∧
    ((saveVerdict st v).hearings =
      replaceFirst (fun x => decide (x.id = v.hearing_id)) (judgedOf h) st.hearings) ∧
    ((saveVerdict st v).cases =
      replaceFirst (fun x => decide (x.id = h.case_id)) (decidedOf c) st.cases) := by
  refine ⟨?_, ?_, ?_⟩ <;> simp [saveVerdict, hh, hc, judgedOf, decidedOf]

/-- C7: recording N ≥ 1 verdicts for the same hearing id is an upsert with
replace semantics: exactly the last verdict is retrievable for that hearing
(indeed it is the only one stored for it), the hearing's status is `judged`,
and the parent case's status is `decided`. -/
theorem c7_saveVerdict_upsert (st : StoreState) (hid : String) (h : Hearing) (c : Case)
    (vs : List Verdict) (hne : vs ≠ [])
    (hh : st.hearings.find? (fun x => decide (x.id = hid)) = some h)
    (hc : st.cases.find? (fun x => decide (x.id = h.case_id)) = some c)
    (hv : ∀ v ∈ vs, v.hearing_id = hid) :
    ((vs.foldl saveVerdict st).verdicts.filter (fun x => decide (x.hearing_id = hid)) =
      [vs.getLast hne]) ∧
    (getVerdict (vs.foldl saveVerdict st) hid = some (vs.getLast hne)) ∧
    (∃ h', (vs.foldl saveVerdict st).hearings.find? (fun x => decide (x.id = hid)) = some h' ∧
      h'.status = .judged ∧ h'.case_id = h.case_id) ∧
    (∃ c', (vs.foldl saveVerdict st).cases.find? (fun x => decide (x.id = h.case_id)) =
        some c' ∧ c'.status = .decided) := by
  revert hne hh hc hv
  induction vs generalizing st h c with
  | nil => intro hne _ _ _; exact absurd rfl hne
  | cons v rest ih =>
      intro _ hh hc hv
      have hvh : v.hearing_id = hid := hv v (List.mem_cons_self v rest)
      have hhid : h.id = hid := by simpa using List.find?_some hh
      have heff := saveVerdict_effects st v h c (by rw [hvh]; exact hh) hc
      have hsomeh : (st.hearings.find? (fun x => decide (x.id = hid))).isSome = true := by
        rw [hh]; rfl
      have hsomec : (st.cases.find? (fun x => decide (x.id = h.case_id))).isSome = true := by
        rw [hc]; rfl
      have hpj : (fun x : Hearing => decide (x.id = hid)) (judgedOf h) = true := by
        simpa [judgedOf] using hhid
      have hpd : (fun x : Case => decide (x.id = h.case_id)) (decidedOf c) = true := by
        have := List.find?_some hc
        simpa [decidedOf] using this
      have hh' : (saveVerdict st v).hearings.find? (fun x => decide (x.id = hid)) =
          some (judgedOf h) := by
        rw [heff.2.1, ← hvh]
        rw [hvh]
        exact replaceFirst_find? (fun x : Hearing => decide (x.id = hid)) (judgedOf h) hpj
          st.hearings hsomeh
      have hc' : (saveVerdict st v).cases.find? (fun x => decide (x.id = h.case_id)) =
          some (decidedOf c) := by
        rw [heff.2.2]
        exact replaceFirst_find? (fun x : Case => decide (x.id = h.case_id)) (decidedOf c) hpd
          st.cases hsomec
      cases rest with
      | nil =>
          refine ⟨?_, ?_, ⟨judgedOf h, hh', rfl, rfl⟩, ⟨decidedOf c, hc', rfl⟩⟩
          · show (saveVerdict st v).verdicts.filter (fun x => decide (x.hearing_id = hid)) = [v]
            rw [heff.1, List.filter_append, hvh,
              filter_ne_filter_eq (fun x : Verdict => x.hearing_id)]
            simp [hvh]
          · show getVerdict (saveVerdict st v) hid = some v
            rw [getVerdict, heff.1, List.find?_append, hvh,
              find?_eq_filter_ne (fun x : Verdict => x.hearing_id)]
            simp [hvh]
      | cons r rest' =>
          have hlast : (v :: r :: rest').getLast (by simp) = (r :: rest').getLast (by simp) :=
            List.getLast_cons _
          have hstep : ((v :: r :: rest').foldl saveVerdict st) =
              ((r :: rest').foldl saveVerdict (saveVerdict st v)) := rfl
          have hres := ih (saveVerdict st v) (judgedOf h) (decidedOf c) (by simp)
            hh' (by simpa [judgedOf] using hc') (fun w hw => hv w (List.mem_cons_of_mem v hw))
          rw [hstep]
          refine ⟨?_, ?_, ?_, ?_⟩
          · rw [hlast]; exact hres.1
          · rw [hlast]; exact hres.2.1
          · obtain ⟨h'', hfind'', hstat'', hcase''⟩ := hres.2.2.1
            exact ⟨h'', hfind'', hstat'', by simpa [judgedOf] using hcase''⟩
          · simpa [judgedOf] using hres.2.2.2

/-- Witness for C7: two verdicts recorded for hearing `"h1"` of the decided
store; only the second remains, the hearing is judged, the case decided. -/
theorem c7_saveVerdict_upsert_witness :
    (([sampleVerdict, sampleVerdict'].foldl saveVerdict decidedStore).verdicts.filter
      (fun x => decide (x.hearing_id = "h1")) =
      [[sampleVerdict, sampleVerdict'].getLast (by simp)]) ∧
    (getVerdict ([sampleVerdict, sampleVerdict'].foldl saveVerdict decidedStore) "h1" =
      some ([sampleVerdict, sampleVerdict'].getLast (by simp))) ∧
    (∃ h', ([sampleVerdict, sampleVerdict'].foldl saveVerdict decidedStore).hearings.find?
        (fun x => decide (x.id = "h1")) = some h' ∧
      h'.status = .judged ∧ h'.case_id = judgedHearing.case_id) ∧
    (∃ c', ([sampleVerdict, sampleVerdict'].foldl saveVerdict decidedStore).cases.find?
        (fun x => decide (x.id = judgedHearing.case_id)) = some c' ∧ c'.status = .decided) := by
  refine c7_saveVerdict_upsert decidedStore "h1" judgedHearing decidedCase
    [sampleVerdict, sampleVerdict'] (by simp) rfl rfl ?_
  intro v hv
  rcases List.mem_cons.mp hv with rfl | hv'
  · rfl
  · rcases List.mem_singleton.mp hv' with rfl
    rfl

theorem expireInvites_hearings (st : StoreState) (now : Int) :
    (expireInvites st now).hearings = st.hearings := rfl

theorem expireInvites_verdicts (st : StoreState) (now : Int) :
    (expireInvites st now).verdicts = st.verdicts := rfl

theorem listHearings_expireInvites (st : StoreState) (now : Int) (caseId : String) :
    listHearings (expireInvites st now) caseId = listHearings st caseId := rfl

/-! ### C2 -/

/-- C2: an appeal on a hearing that belongs to the case, by a participant,
appends exactly one new Hearing with status `submitted` and round equal to
(maximum existing round for that case) + 1, sets the parent case's status to
`appealed`, and leaves every stored verdict — in particular any verdict of
the appealed hearing — unchanged and retrievable. -/
theorem c2_appeal_effects (st : StoreState) (freshId : String) (evIds : Nat → String)
    (now : Int) (userId caseId hearingId : String) (body : AppealBody) (c : Case) (h : Hearing)
    (hc : (expireInvites st now).cases.find? (fun x => decide (x.id = caseId)) = some c)
    (hpart : (c.participant_ids.getD []).contains userId = true)
    (hh : getHearing (expireInvites st now) hearingId = some h)
    (hbel : h.case_id = c.id)
    (hval : appealValid body = true) :
    ∃ newH : Hearing,
      ((postAppeal st freshId evIds now userId caseId hearingId body).1.hearings =
        st.hearings ++ [newH]) ∧
      newH.status = .submitted ∧
      newH.case_id = caseId ∧
      newH.round = maxRound (listHearings st caseId) + 1 ∧
      (∃ c', (postAppeal st freshId evIds now userId caseId hearingId body).1.cases.find?
          (fun x => decide (x.id = caseId)) = some c' ∧ c'.status = .appealed) ∧
      (∀ hid₀, getVerdict (postAppeal st freshId evIds now userId caseId hearingId body).1 hid₀ =
        getVerdict st hid₀) := by
  have hcid : c.id = caseId := by simpa using List.find?_some hc
  subst hcid
  obtain ⟨bs, be⟩ := body
  have hpApp : (fun x : Case => decide (x.id = c.id)) (appealedOf c) = true := by
    simp [appealedOf]
  have hpPend : (fun x : Case => decide (x.id = c.id)) (pendingJudgementOf c) = true := by
    simp [pendingJudgementOf]
  have hsome : ((expireInvites st now).cases.find? (fun x => decide (x.id = c.id))).isSome
      = true := by rw [hc]; rfl
  have hred : postAppeal st freshId evIds now userId c.id hearingId ⟨bs, be⟩ =
      (let stE := expireInvites st now
       let r₁ := createHearing stE freshId now c.id (maxRound (listHearings stE c.id) + 1)
       let st₂ := match bs with
         | some stmts => saveStatements r₁.1 r₁.2.id (stmts.map (toStatement r₁.2.id now))
         | none => r₁.1
       let st₃ := match be with
         | some evs => saveEvidence st₂ r₁.2.id (evs.mapIdx (toEvidence r₁.2.id now evIds))
         | none => st₂
       ({ st₃ with
            cases := replaceFirst (fun x => decide (x.id = c.id)) (appealedOf c) st₃.cases },
         .error .internal)) := by
    simp only [postAppeal, getCase, hc, hh, appealedOf]
    rw [if_neg (not_not_intro hpart), if_neg (not_not_intro hbel), if_neg (not_not_intro hval)]
  have h1 : (postAppeal st freshId evIds now userId c.id hearingId ⟨bs, be⟩).1.hearings =
      st.hearings ++ [⟨freshId, c.id, maxRound (listHearings st c.id) + 1, .submitted, now⟩] := by
    rw [hred]
    cases bs <;> cases be <;>
      simp [createHearing, saveStatements, saveEvidence, hc, listHearings_expireInvites,
        expireInvites_hearings]
  have h5 : (postAppeal st freshId evIds now userId c.id hearingId ⟨bs, be⟩).1.cases =
      replaceFirst (fun x => decide (x.id = c.id)) (appealedOf c)
        (replaceFirst (fun x => decide (x.id = c.id)) (pendingJudgementOf c)
          (expireInvites st now).cases) := by
    rw [hred]
    cases bs <;> cases be <;>
      simp [createHearing, saveStatements, saveEvidence, hc, pendingJudgementOf,
        listHearings_expireInvites]
  have h6 : (postAppeal st freshId evIds now userId c.id hearingId ⟨bs, be⟩).1.verdicts =
      st.verdicts := by
    rw [hred]
    cases bs <;> cases be <;>
      simp [createHearing, saveStatements, saveEvidence, hc, expireInvites_verdicts,
        listHearings_expireInvites]
  have f1 : (replaceFirst (fun x => decide (x.id = c.id)) (pendingJudgementOf c)
      (expireInvites st now).cases).find? (fun x => decide (x.id = c.id)) =
      some (pendingJudgementOf c) :=
    replaceFirst_find? (fun x : Case => decide (x.id = c.id)) (pendingJudgementOf c) hpPend
      _ hsome
  have f2 : (replaceFirst (fun x => decide (x.id = c.id)) (appealedOf c)
      (replaceFirst (fun x => decide (x.id = c.id)) (pendingJudgementOf c)
        (expireInvites st now).cases)).find? (fun x => decide (x.id = c.id)) =
      some (appealedOf c) := by
    refine replaceFirst_find? (fun x : Case => decide (x.id = c.id)) (appealedOf c) hpApp _ ?_
    rw [f1]; rfl
  refine ⟨⟨freshId, c.id, maxRound (listHearings st c.id) + 1, .submitted, now⟩,
    h1, rfl, rfl, rfl, ⟨appealedOf c, by rw [h5]; exact f2, rfl⟩, ?_⟩
  intro hid₀
  rw [getVerdict, getVerdict, h6]

/-- Witness for C2: an appeal on the judged hearing of the decided store by
its participant. -/
theorem c2_appeal_effects_witness :
    ∃ newH : Hearing,
      ((postAppeal decidedStore "h2" (fun _ => "e") 5 "u1" "c1" "h1" ⟨none, none⟩).1.hearings =
        decidedStore.hearings ++ [newH]) ∧
      newH.status = .submitted ∧
      newH.case_id = "c1" ∧
      newH.round = maxRound (listHearings decidedStore "c1") + 1 ∧
      (∃ c', (postAppeal decidedStore "h2" (fun _ => "e") 5 "u1" "c1" "h1"
          ⟨none, none⟩).1.cases.find?
          (fun x => decide (x.id = "c1")) = some c' ∧ c'.status = .appealed) ∧
      (∀ hid₀, getVerdict (postAppeal decidedStore "h2" (fun _ => "e") 5 "u1" "c1" "h1"
          ⟨none, none⟩).1 hid₀ =
        getVerdict decidedStore hid₀) :=
  c2_appeal_effects decidedStore "h2" (fun _ => "e") 5 "u1" "c1" "h1" ⟨none, none⟩
    decidedCase judgedHearing rfl rfl rfl rfl rfl

/-! ### C5 -/

theorem foldr_max_range' : ∀ (n b : Nat), (List.range' 1 n).foldr max b = max b n := by
  intro n
  induction n with
  | zero => intro b; simp
  | succ m ih =>
      intro b
      rw [List.range'_concat, List.foldr_append]
      simp only [List.foldr_cons, List.foldr_nil]
      rw [ih]
      simp only [Nat.max_def]
      split_ifs <;> omega

theorem range'_one_concat (n : Nat) : List.range' 1 (n + 1) = List.range' 1 n ++ [n + 1] := by
  rw [List.range'_concat]
  simp [Nat.add_comm]

theorem postHearings_success (st : StoreState) (fid : String) (evIds : Nat → String)
    (now : Int) (uid cid : String) (body : PostHearingsBody) (c : Case)
    (hfind : (expireInvites st now).cases.find? (fun x => decide (x.id = cid)) = some c)
    (hpart : (c.participant_ids.getD []).contains uid = true)
    (hacc : c.acceptance.any (fun a => decide (a ≠ Acceptance.accepted)) = false)
    (hvalid : postHearingsValid body = true) :
    postHearings st fid evIds now uid cid body =
      (let stE := expireInvites st now
       let nextRound := match body.round with
         | some r => r
         | none => if (listHearings stE c.id).length = 0 then 1
                   else maxRound (listHearings stE c.id) + 1
       let r₁ := createHearing stE fid now c.id nextRound
       let st₂ := saveStatements r₁.1 r₁.2.id (body.statements.map (toStatement r₁.2.id now))
       let st₃ := saveEvidence st₂ r₁.2.id
         ((body.evidence.getD []).mapIdx (toEvidence r₁.2.id now evIds))
       (st₃, .ok r₁.2)) := by
  simp only [postHearings, getCase, hfind]
  rw [if_neg (not_not_intro hpart), if_neg (by simpa using hacc), if_neg (not_not_intro hvalid)]

theorem applyOp_rounds (st : StoreState) (caseId : String) (op : HOp) (n : Nat)
    (h : (listHearings st caseId).map (fun hg => hg.round) = List.range' 1 n) :
    ((listHearings (applyOp st op) caseId).map (fun hg => hg.round) = List.range' 1 n) ∨
    ((listHearings (applyOp st op) caseId).map (fun hg => hg.round) = List.range' 1 (n + 1)) := by
  have hlen : (listHearings st caseId).length = n := by
    have := congrArg List.length h
    simpa using this
  cases op with
  | submit freshId evIds now userId cid stmts evs =>
      rcases hfind : (expireInvites st now).cases.find? (fun x => decide (x.id = cid))
        with _ | c
      · left
        simp only [applyOp, postHearings, getCase, hfind]
        exact h
      · have hcid : c.id = cid := by simpa using List.find?_some hfind
        subst hcid
        by_cases hpart : ((c.participant_ids.getD []).contains userId) = true
        · by_cases hacc : (c.acceptance.any (fun a => decide (a ≠ Acceptance.accepted))) = true
          · left
            simp only [applyOp, postHearings, getCase, hfind]
            rw [if_neg (not_not_intro hpart), if_pos hacc]
            exact h
          · have hacc' : c.acceptance.any (fun a => decide (a ≠ Acceptance.accepted)) = false :=
              by simpa using hacc
            by_cases hvalid :
              postHearingsValid { round := none, statements := stmts, evidence := evs } = true
            · have hred := postHearings_success st freshId evIds now userId c.id
                { round := none, statements := stmts, evidence := evs } c hfind hpart hacc' hvalid
              have hstate : (applyOp st
                  (.submit freshId evIds now userId c.id stmts evs)).hearings =
                  st.hearings ++ [(⟨freshId, c.id,
                    (if (listHearings st c.id).length = 0 then 1
                     else maxRound (listHearings st c.id) + 1), .submitted, now⟩ : Hearing)] := by
                simp only [applyOp, hred]
                simp [createHearing, saveStatements, saveEvidence, hfind,
                  expireInvites_hearings, listHearings_expireInvites]
              have hfilterSplit : listHearings (applyOp st
                  (.submit freshId evIds now userId c.id stmts evs)) caseId =
                  listHearings st caseId ++
                    (List.filter (fun hg => decide (hg.case_id = caseId))
                      [(⟨freshId, c.id,
                        (if (listHearings st c.id).length = 0 then 1
                         else maxRound (listHearings st c.id) + 1), .submitted, now⟩ : Hearing)]) := by
                rw [listHearings, hstate, List.filter_append]
                rfl
              by_cases hcc : c.id = caseId
              · right
                subst hcc
                rw [hfilterSplit]
                simp only [List.filter_cons, List.filter_nil, decide_eq_true_eq, if_pos rfl]
                rw [List.map_append, h]
                cases n with
                | zero =>
                    have hz : (listHearings st c.id).length = 0 := hlen
                    have h1 : List.range' 1 1 = [1] := rfl
                    simp [hz, h1]
                | succ m =>
                    have hz : ¬ (listHearings st c.id).length = 0 := by omega
                    have hmax : maxRound (listHearings st c.id) = m + 1 := by
                      rw [maxRound, h, foldr_max_range']
                      simp
                    rw [if_neg hz, hmax]
                    show List.range' 1 (m + 1) ++ [m + 1 + 1] = List.range' 1 (m + 1 + 1)
                    exact (range'_one_concat (m + 1)).symm
              · left
                rw [hfilterSplit]
                have : List.filter (fun hg => decide (hg.case_id = caseId))
                    [(⟨freshId, c.id,
                      (if (listHearings st c.id).length = 0 then 1
                       else maxRound (listHearings st c.id) + 1), .submitted, now⟩ : Hearing)]
                    = [] := by
                  simp [hcc]
                rw [this, List.append_nil]
                exact h
            · left
              simp only [applyOp, postHearings, getCase, hfind]
              rw [if_neg (not_not_intro hpart), if_neg (by simpa using hacc'), if_pos hvalid]
              exact h
        · left
          simp only [applyOp, postHearings, getCase, hfind]
          rw [if_pos hpart]
          exact h
  | appealOp freshId evIds now userId cid hearingId body =>
      rcases hfind : (expireInvites st now).cases.find? (fun x => decide (x.id = cid))
        with _ | c
      · left
        simp only [applyOp, postAppeal, getCase, hfind]
        exact h
      · have hcid : c.id = cid := by simpa using List.find?_some hfind
        subst hcid
        by_cases hpart : ((c.participant_ids.getD []).contains userId) = true
        · rcases hfh : getHearing (expireInvites st now) hearingId with _ | hr
          · left
            simp only [applyOp, postAppeal, getCase, hfind, hfh]
            rw [if_neg (not_not_intro hpart)]
            exact h
          · by_cases hbel : hr.case_id = c.id
            · by_cases hval : appealValid body = true
              · -- success branch
                have hne : listHearings st c.id ≠ [] := by
                  have hmem : hr ∈ (expireInvites st now).hearings :=
                    List.mem_of_find?_eq_some hfh
                  have : hr ∈ listHearings st c.id := by
                    rw [listHearings]
                    refine List.mem_filter.mpr ⟨hmem, by simpa using hbel⟩
                  exact List.ne_nil_of_mem this
                have hstate : (applyOp st
                    (.appealOp freshId evIds now userId c.id hearingId body)).hearings =
                    st.hearings ++ [(⟨freshId, c.id,
                      maxRound (listHearings st c.id) + 1, .submitted, now⟩ : Hearing)] := by
                  obtain ⟨bs, be⟩ := body
                  simp only [applyOp, postAppeal, getCase, hfind, hfh]
                  rw [if_neg (not_not_intro hpart), if_neg (not_not_intro hbel),
                    if_neg (not_not_intro hval)]
                  cases bs <;> cases be <;>
                    simp [createHearing, saveStatements, saveEvidence, hfind,
                      expireInvites_hearings, listHearings_expireInvites]
                have hfilterSplit : listHearings (applyOp st
                    (.appealOp freshId evIds now userId c.id hearingId body)) caseId =
                    listHearings st caseId ++
                      (List.filter (fun hg => decide (hg.case_id = caseId))
                        [(⟨freshId, c.id,
                          maxRound (listHearings st c.id) + 1, .submitted, now⟩ : Hearing)]) := by
                  rw [listHearings, hstate, List.filter_append]
                  rfl
                by_cases hcc : c.id = caseId
                · right
                  subst hcc
                  rw [hfilterSplit]
                  simp only [List.filter_cons, List.filter_nil, decide_eq_true_eq, if_pos rfl]
                  rw [List.map_append, h]
                  cases n with
                  | zero =>
                      exfalso
                      apply hne
                      have := congrArg List.length h
                      simpa using this
                  | succ m =>
                      have hmax : maxRound (listHearings st c.id) = m + 1 := by
                        rw [maxRound, h, foldr_max_range']
                        simp
                      rw [hmax]
                      show List.range' 1 (m + 1) ++ [m + 1 + 1] = List.range' 1 (m + 1 + 1)
                      exact (range'_one_concat (m + 1)).symm
                · left
                  rw [hfilterSplit]
                  have : List.filter (fun hg => decide (hg.case_id = caseId))
                      [(⟨freshId, c.id,
                        maxRound (listHearings st c.id) + 1, .submitted, now⟩ : Hearing)]
                      = [] := by
                    simp [hcc]
                  rw [this, List.append_nil]
                  exact h
              · left
                obtain ⟨bs, be⟩ := body
                simp only [applyOp, postAppeal, getCase, hfind, hfh]
                rw [if_neg (not_not_intro hpart), if_neg (not_not_intro hbel),
                  if_pos (by simpa using hval)]
                exact h
            · left
              simp only [applyOp, postAppeal, getCase, hfind, hfh]
              rw [if_neg (not_not_intro hpart), if_pos hbel]
              exact h
        · left
          simp only [applyOp, postAppeal, getCase, hfind]
          rw [if_pos hpart]
          exact h

/-- C5: for a case whose hearings are all created through hearing submission
or appeal with the `round` argument omitted, the rounds form the gap-free
sequence 1, 2, ..., n; and whenever an omitted-round submission succeeds, the
created round is 1 when the case has no hearings and (max existing round) + 1
otherwise. -/
theorem c5_rounds_sequence (st : StoreState) (caseId : String) (ops : List HOp)
    (h0 : listHearings st caseId = []) :
    (∃ n, (listHearings (runOps st ops) caseId).map (fun hg => hg.round) =
      List.range' 1 n) ∧
    (∀ (st' : StoreState) (fid : String) (evIds' : Nat → String) (now : Int)
      (uid cid : String) (body : PostHearingsBody) (h' : Hearing),
      body.round = none →
      (postHearings st' fid evIds' now uid cid body).2 = .ok h' →
      h'.round = if listHearings st' cid = [] then 1
                 else maxRound (listHearings st' cid) + 1) := by
  constructor
  · have key : ∀ (ops' : List HOp) (st' : StoreState) (n : Nat),
        (listHearings st' caseId).map (fun hg => hg.round) = List.range' 1 n →
        ∃ m, (listHearings (runOps st' ops') caseId).map (fun hg => hg.round) =
          List.range' 1 m := by
      intro ops'
      induction ops' with
      | nil => intro st' n hn; exact ⟨n, hn⟩
      | cons op rest ih =>
          intro st' n hn
          rcases applyOp_rounds st' caseId op n hn with h' | h'
          · exact ih (applyOp st' op) n h'
          · exact ih (applyOp st' op) (n + 1) h'
    exact key ops st 0 (by simp [h0])
  · intro st' fid evIds' now uid cid body h' hrnone hok
    rcases hfind : (expireInvites st' now).cases.find? (fun x => decide (x.id = cid))
      with _ | c
    · simp only [postHearings, getCase] at hok
      simp only [hfind] at hok
      cases hok
    · have hcid : c.id = cid := by simpa using List.find?_some hfind
      subst hcid
      by_cases hpart : ((c.participant_ids.getD []).contains uid) = true
      · by_cases hacc : (c.acceptance.any (fun a => decide (a ≠ Acceptance.accepted))) = true
        · simp only [postHearings, getCase] at hok
          simp only [hfind] at hok
          rw [if_neg (not_not_intro hpart), if_pos hacc] at hok
          cases hok
        · have hacc' : c.acceptance.any (fun a => decide (a ≠ Acceptance.accepted)) = false :=
            by simpa using hacc
          by_cases hvalid : postHearingsValid body = true
          · rw [postHearings_success st' fid evIds' now uid c.id body c hfind hpart hacc'
              hvalid] at hok
            simp only [hrnone] at hok
            have hh' : h' = (⟨fid, c.id,
                (if listHearings (expireInvites st' now) c.id = [] then 1
                 else maxRound (listHearings (expireInvites st' now) c.id) + 1),
                .submitted, now⟩ : Hearing) := by
              have hthis := hok
              simp [createHearing] at hthis
              exact hthis.symm
            rw [hh', listHearings_expireInvites]
          · simp only [postHearings, getCase] at hok
            simp only [hfind] at hok
            rw [if_neg (not_not_intro hpart), if_neg (by simpa using hacc'),
              if_pos hvalid] at hok
            cases hok
      · simp only [postHearings, getCase] at hok
        simp only [hfind] at hok
        rw [if_pos hpart] at hok
        cases hok

/-- Witness for C5: two omitted-round submissions against a fresh case give
rounds forming a `range'` sequence, and the first submission resolves its
omitted round to 1. -/
theorem c5_rounds_sequence_witness :
    (∃ n, (listHearings (runOps freshStore c5ops) "c1").map (fun hg => hg.round) =
      List.range' 1 n) ∧
    ((⟨"h1", "c1", 1, .submitted, 0⟩ : Hearing).round =
      if listHearings freshStore "c1" = [] then 1
      else maxRound (listHearings freshStore "c1") + 1) := by
  have h := c5_rounds_sequence freshStore "c1" c5ops rfl
  refine ⟨h.1, ?_⟩
  exact h.2 freshStore "h1" (fun _ => "e") 0 "u1" "c1" c5body
    ⟨"h1", "c1", 1, .submitted, 0⟩ rfl rfl

/-! ### C3 -/

/-- C3 (amended): `POST /cases` fails with a ValidationError exactly on an
empty topic; a supplied parties array passes validation whenever each element
individually has a well-formed side — there is no check that the array
represents exactly the two sides A and B. -/
theorem c3_validation (st : StoreState) (freshId : String) (now : Int) (userId : String)
    (body : PostCasesBody) :
    (body.topic = "" → postCases st freshId now userId body = (st, .error .validation)) ∧
    (body.topic ≠ "" → body.friend_email = none →
      (postCases st freshId now userId body).2.isOk = true) := by
  constructor
  · intro ht
    simp [postCases, ht]
  · intro ht hfe
    simp [postCases, ht, hfe, Except.isOk, Except.toBool]

/-- Witness for C3: an empty topic is rejected, a non-empty topic accepted. -/
theorem c3_validation_witness :
    (postCases emptyStore "x" 0 "u" { topic := "" } = (emptyStore, .error .validation)) ∧
    ((postCases emptyStore "x" 0 "u" { topic := "t" }).2.isOk = true) :=
  ⟨(c3_validation emptyStore "x" 0 "u" { topic := "" }).1 rfl,
    (c3_validation emptyStore "x" 0 "u" { topic := "t" }).2 (by decide) rfl⟩

/-- Counterexample to C3 as stated: a single-party array and a two-sides-A
array are both accepted without a ValidationError. -/
theorem c3_counterexample :
    ((postCases emptyStore "c1" 0 "u1"
      { topic := "t", parties := some [{ side := PartySide.A }] }).2.isOk = true) ∧
    ((postCases emptyStore "c1" 0 "u1"
      { topic := "t", parties := some [{ side := PartySide.A }, { side := PartySide.A }] }).2.isOk
      = true) :=
  ⟨rfl, rfl⟩

/-! ### C6 -/

theorem clampNum_bounds (lo hi : ℚ) (hlohi : lo ≤ hi) (v : Option ℚ) (q : ℚ)
    (h : clampNum lo hi v = some q) : lo ≤ q ∧ q ≤ hi := by
  rcases v with _ | q₀
  · simp [clampNum] at h
  · simp [clampNum] at h
    subst h
    exact ⟨le_min hlohi (le_max_left lo q₀), min_le_left _ _⟩

/-- C6 (amended): the validator never fails and clamps every score field that
coerces to an actual number into its range ([0,100] for the percentages,
[0,1] for confidence) — in particular an input `partyA_pct` of 150 yields
100 and an input confidence of −1 yields 0 — and defaults every missing
string or array field to empty; but a score field that coerces to NaN (e.g. a
non-numeric string) propagates NaN instead of a clamped number. -/
theorem c6_validator (hearingId : String) (now : Int) (j : Json) :
    (∀ q, (normalizeResponse hearingId now j).score.partyA_pct = some q →
      0 ≤ q ∧ q ≤ 100) ∧
    (∀ q, (normalizeResponse hearingId now j).score.partyB_pct = some q →
      0 ≤ q ∧ q ≤ 100) ∧
    (∀ q, (normalizeResponse hearingId now j).score.confidence = some q →
      0 ≤ q ∧ q ≤ 1) ∧
    ((j.getField "score").bind (fun sc => sc.getField "partyA_pct") = some (.num 150) →
      (normalizeResponse hearingId now j).score.partyA_pct = some 100) ∧
    ((j.getField "score").bind (fun sc => sc.getField "confidence") = some (.num (-1)) →
      (normalizeResponse hearingId now j).score.confidence = some 0) ∧
    (j.getField "summary" = none → (normalizeResponse hearingId now j).summary = .str "") ∧
    ((j.getField "reasoning").bind (fun r => r.getField "facts") = none →
      (normalizeResponse hearingId now j).reasoning.facts = .str "") ∧
    ((j.getField "reasoning").bind (fun r => r.getField "fairness_checks") = none →
      (normalizeResponse hearingId now j).reasoning.fairness_checks = .arr []) ∧
    ((j.getField "reasoning").bind (fun r => r.getField "emotion_considerations") = none →
      (normalizeResponse hearingId now j).reasoning.emotion_considerations = .str "") ∧
    ((j.getField "reasoning").bind (fun r => r.getField "assumptions") = none →
      (normalizeResponse hearingId now j).reasoning.assumptions = .arr []) ∧
    ((j.getField "reasoning").bind (fun r => r.getField "missing_info") = none →
      (normalizeResponse hearingId now j).reasoning.missing_info = .arr []) ∧
    ((j.getField "advice").bind (fun a => a.getField "together") = none →
      (normalizeResponse hearingId now j).advice.together = .arr []) ∧
    ((j.getField "advice").bind (fun a => a.getField "forA") = none →
      (normalizeResponse hearingId now j).advice.forA = .arr []) ∧
    ((j.getField "advice").bind (fun a => a.getField "forB") = none →
      (normalizeResponse hearingId now j).advice.forB = .arr []) := by
  refine ⟨?_, ?_, ?_, ?_, ?_, ?_, ?_, ?_, ?_, ?_, ?_, ?_, ?_, ?_⟩
  · intro q hq
    exact clampNum_bounds 0 100 (by norm_num) _ q hq
  · intro q hq
    exact clampNum_bounds 0 100 (by norm_num) _ q hq
  · intro q hq
    exact clampNum_bounds 0 1 (by norm_num) _ q hq
  · intro hf
    norm_num [normalizeResponse, hf, jsCoalesce, jsToNumber, clampNum]
  · intro hf
    norm_num [normalizeResponse, hf, jsCoalesce, jsToNumber, clampNum]
  · intro hf
    simp [normalizeResponse, hf, jsCoalesce]
  · intro hf
    simp [normalizeResponse, hf, jsCoalesce]
  · intro hf
    simp [normalizeResponse, hf, jsCoalesce]
  · intro hf
    simp [normalizeResponse, hf, jsCoalesce]
  · intro hf
    simp [normalizeResponse, hf, jsCoalesce]
  · intro hf
    simp [normalizeResponse, hf, jsCoalesce]
  · intro hf
    simp [normalizeResponse, hf, jsCoalesce]
  · intro hf
    simp [normalizeResponse, hf, jsCoalesce]
  · intro hf
    simp [normalizeResponse, hf, jsCoalesce]

/-- Witness for C6: on a response with `partyA_pct = 150` and
`confidence = -1` and no other fields, the output clamps to 100 and 0 and the
missing summary defaults to the empty string. -/
theorem c6_validator_witness :
    ((normalizeResponse "h1" 0 c6j).score.partyA_pct = some 100) ∧
    ((normalizeResponse "h1" 0 c6j).score.confidence = some 0) ∧
    ((normalizeResponse "h1" 0 c6j).summary = .str "") := by
  have h := c6_validator "h1" 0 c6j
  exact ⟨h.2.2.2.1 rfl, h.2.2.2.2.1 rfl, h.2.2.2.2.2.1 rfl⟩

/-- Counterexample to C6 as stated: for the input `partyA_pct = "abc"` — a
JSON-shaped object — the output score is NaN (here `none`), not a number
clamped into [0,100]. -/
theorem c6_counterexample :
    ((normalizeResponse "h1" 0 c6bad).score.partyA_pct = none) ∧
    ¬ (∃ q : ℚ, (normalizeResponse "h1" 0 c6bad).score.partyA_pct = some q ∧
        0 ≤ q ∧ q ≤ 100) := by
  refine ⟨rfl, ?_⟩
  rintro ⟨q, hq, -⟩
  have h0 : (normalizeResponse "h1" 0 c6bad).score.partyA_pct = none := rfl
  rw [h0] at hq
  cases hq

/-! ### C10 -/

theorem sum_map_filter_le {α : Type} (l : List α) (p : α → Bool) (f : α → Nat) :
    ((l.filter p).map f).sum ≤ (l.map f).sum := by
  induction l with
  | nil => simp
  | cons x xs ih =>
      by_cases hp : p x = true
      · simp only [List.filter_cons, hp, if_true, List.map_cons, List.sum_cons]
        exact Nat.add_le_add_left ih _
      · have hp' : p x = false := by simpa using hp
        simp only [List.filter_cons, hp', Bool.false_eq_true, if_false, List.map_cons,
          List.sum_cons]
        exact ih.trans (Nat.le_add_left _ _)

theorem jsRound_bounds (r : ℚ) (h0 : 0 ≤ r) (h100 : r ≤ 100) :
    0 ≤ jsRound r ∧ jsRound r ≤ 100 := by
  unfold jsRound
  constructor
  · have hz : (0 : ℤ) ≤ ⌊r + 1 / 2⌋ := Int.floor_nonneg.mpr (by linarith)
    exact_mod_cast hz
  · have hlt : ⌊r + 1 / 2⌋ < (101 : ℤ) := Int.floor_lt.mpr (by push_cast; linarith)
    have hle : ⌊r + 1 / 2⌋ ≤ (100 : ℤ) := by omega
    exact_mod_cast hle

theorem mockScore_bounds (S A : Nat) (hAS : A ≤ S) :
    0 ≤ jsRound ((if A = 0 then (if S = 0 then (1 : ℚ) else (S : ℚ)) / 2 else (A : ℚ)) /
      (if S = 0 then (1 : ℚ) else (S : ℚ)) * 100) ∧
    jsRound ((if A = 0 then (if S = 0 then (1 : ℚ) else (S : ℚ)) / 2 else (A : ℚ)) /
      (if S = 0 then (1 : ℚ) else (S : ℚ)) * 100) ≤ 100 := by
  have hT1 : (1 : ℚ) ≤ (if S = 0 then (1 : ℚ) else (S : ℚ)) := by
    by_cases hS : S = 0
    · simp [hS]
    · rw [if_neg hS]
      exact_mod_cast Nat.one_le_iff_ne_zero.mpr hS
  have hT0 : (0 : ℚ) < (if S = 0 then (1 : ℚ) else (S : ℚ)) := lt_of_lt_of_le one_pos hT1
  have hW0 : (0 : ℚ) ≤ (if A = 0 then (if S = 0 then (1 : ℚ) else (S : ℚ)) / 2 else (A : ℚ)) := by
    by_cases hA : A = 0
    · rw [if_pos hA]
      positivity
    · rw [if_neg hA]
      positivity
  have hWT : (if A = 0 then (if S = 0 then (1 : ℚ) else (S : ℚ)) / 2 else (A : ℚ)) ≤
      (if S = 0 then (1 : ℚ) else (S : ℚ)) := by
    by_cases hA : A = 0
    · rw [if_pos hA]
      linarith
    · rw [if_neg hA]
      have hS : S ≠ 0 := by
        intro hS0
        exact hA (Nat.le_zero.mp (hS0 ▸ hAS))
      rw [if_neg hS]
      exact_mod_cast hAS
  have hr0 : (0 : ℚ) ≤ (if A = 0 then (if S = 0 then (1 : ℚ) else (S : ℚ)) / 2 else (A : ℚ)) /
      (if S = 0 then (1 : ℚ) else (S : ℚ)) * 100 := by positivity
  have hr100 : (if A = 0 then (if S = 0 then (1 : ℚ) else (S : ℚ)) / 2 else (A : ℚ)) /
      (if S = 0 then (1 : ℚ) else (S : ℚ)) * 100 ≤ 100 := by
    have hdiv : (if A = 0 then (if S = 0 then (1 : ℚ) else (S : ℚ)) / 2 else (A : ℚ)) /
        (if S = 0 then (1 : ℚ) else (S : ℚ)) ≤ 1 := (div_le_one hT0).mpr hWT
    nlinarith
  exact jsRound_bounds _ hr0 hr100

/-- C10: the deterministic fallback adjudicator always returns percentages
that are actual numbers in [0,100] summing to exactly 100, with confidence
exactly 0.3 — the fallback satisfies the score-sum invariant the validator
itself does not enforce. -/
theorem c10_defaultVerdict (now : Int) (input : JudgeServiceInput) :
    ∃ a b : ℚ,
      (defaultVerdict now input).score.partyA_pct = some a ∧
      (defaultVerdict now input).score.partyB_pct = some b ∧
      0 ≤ a ∧ a ≤ 100 ∧ 0 ≤ b ∧ b ≤ 100 ∧ a + b = 100 ∧
      (defaultVerdict now input).score.confidence = some (3 / 10) := by
  have hAS : ((input.statements.filter (fun s => decide (s.side = PartySide.A))).map
      (fun s => splitWsCount s.narrative)).sum ≤
      (input.statements.map (fun s => splitWsCount s.narrative)).sum :=
    sum_map_filter_le input.statements _ _
  have hb := mockScore_bounds
    ((input.statements.map (fun s => splitWsCount s.narrative)).sum)
    (((input.statements.filter (fun s => decide (s.side = PartySide.A))).map
      (fun s => splitWsCount s.narrative)).sum) hAS
  refine ⟨_, _, rfl, rfl, hb.1, hb.2, by linarith [hb.2], by linarith [hb.1], by ring, rfl⟩

end LoveJudge
